import Mathlib

/-
Verification development for the RAN-DDPG training script
(cleanrl/RAN_ddpg_continuous_action.py).

The script trains a DDPG agent whose critic gradient is replaced by a
momentum-reshaped signal.  The development below embeds, over exact
rational arithmetic:

* the tensor collections held by the networks (named, shaped arrays),
* the per-sample Bellman-residual gradient engine (compute_delta and
  its vmapped gradient, script lines 203-219),
* the momentum block of the learning step (script lines 271-334):
  the EMA update of the momentum network m_qf1, the per-sample
  projection c_i, the reshaped tensor R, the RMSprop step on m_qf1 and
  the final assignment p.grad = m.data,
* the training-loop orchestration (warmup vs. learning branch, replay
  insertion, policy-frequency actor update and target smoothing,
  script lines 227-346).

Floating-point arithmetic of the script is idealized as exact rational
arithmetic; the square root inside RMSprop is embedded through Rat.sqrt,
which is exact on the perfect squares used in every concrete evaluation
below.
-/

namespace RanDDPG

/-- Default learning rate, script line 58: 3e-4. -/
def learning_rate : ℚ := 3 / 10000

/-- Default discount factor, script line 62: 0.99. -/
def gamma_default : ℚ := 99 / 100

/-- Default target smoothing coefficient, script line 64: 0.005. -/
def tau_default : ℚ := 1 / 200

/-- Decay constant of the momentum EMA, script line 280. -/
def lambda_val : ℚ := 999 / 1000

/-- Accumulation constant of the momentum EMA, script line 281. -/
def beta : ℚ := 1 / 1000

/-- Learning rate of M_optimizer, script line 183: 0.5 * learning_rate. -/
def m_lr : ℚ := learning_rate / 2

/-- Smoothing constant alpha of torch.optim.RMSprop (library default 0.99). -/
def rms_alpha : ℚ := 99 / 100

/-- Epsilon of torch.optim.RMSprop (library default 1e-8). -/
def rms_eps : ℚ := 1 / 100000000

/-- A parameter tensor: a shape (list of dimensions) together with its
flattened entries.  This models one element of `model.parameters()`. -/
structure Tensor where
  shape : List ℕ
  data : List ℚ
  deriving DecidableEq

/-- A tensor is well formed when it holds exactly as many entries as its
shape prescribes. -/
def Tensor.wf (t : Tensor) : Prop := t.data.length = t.shape.prod

instance (t : Tensor) : Decidable t.wf := by
  unfold Tensor.wf
  infer_instance

/-- The empty tensor, used as an out-of-range default. -/
def tzero : Tensor := ⟨[], []⟩

/-- Scalar multiplication of a tensor. -/
def Tensor.smul (c : ℚ) (t : Tensor) : Tensor :=
  ⟨t.shape, t.data.map (fun x => c * x)⟩

/-- Elementwise sum of two tensors (shape taken from the first). -/
def Tensor.add (s t : Tensor) : Tensor :=
  ⟨s.shape, List.zipWith (· + ·) s.data t.data⟩

/-- Full contraction of two tensors: elementwise product, then sum; this is
`torch.mul(a, b).sum()` on same-shaped tensors. -/
def Tensor.dot (s t : Tensor) : ℚ :=
  (List.zipWith (· * ·) s.data t.data).sum

/-- A named parameter collection, as produced by `model.named_parameters()`. -/
abbrev NParams := List (String × Tensor)

/-- Per-sample gradients: for each parameter name, the gradient tensors of
that parameter over the batch (the `[N, *shape]` stack `gs[name]` of script
line 292, viewed as N tensors). -/
abbrev SampleGrads := List (String × List Tensor)

/-- Lookup of `gs[name]` in a per-sample gradient collection. -/
def lookupG (G : SampleGrads) (nm : String) : List Tensor :=
  match G.find? (fun e => e.1 == nm) with
  | some e => e.2
  | none => []

/-- Shapes (with names) of a parameter collection. -/
def shapesOf (P : NParams) : List (String × List ℕ) :=
  P.map (fun e => (e.1, e.2.shape))

/-- All tensors of a collection are well formed. -/
def TensorsWF (P : NParams) : Prop := ∀ e ∈ P, e.2.wf

instance (P : NParams) : Decidable (TensorsWF P) := by
  unfold TensorsWF
  infer_instance

/-- Entry rule of the momentum EMA, script line 285:
`m.data = lambda_val * m.data + beta * p.grad`. -/
def emaEntry (m g : ℚ) : ℚ := lambda_val * m + beta * g

/-- Script lines 284-285: the decay-and-accumulate update applied to every
momentum tensor, fed by the batch-averaged critic gradient g. -/
def emaP (M g : NParams) : NParams :=
  List.zipWith
    (fun mp gp => (mp.1, Tensor.mk mp.2.shape (List.zipWith emaEntry mp.2.data gp.2.data)))
    M g

/-- Script lines 294-304: the per-sample projection vector: starting from a
zero vector of length N, every parameter name contributes, for sample i,
the contraction of the momentum tensor with the gradient tensor of that sample.
The result is `c_i = sum over names of <M[name], G[name]_i>`. -/
def cvec (M criticP : NParams) (G : SampleGrads) (N : ℕ) : List ℚ :=
  (List.zip M criticP).foldl
    (fun acc mp =>
      let gsName := lookupG G mp.2.1
      List.zipWith (· + ·) acc
        ((List.range N).map (fun i => Tensor.dot mp.1.2 (gsName.getD i tzero))))
    (List.replicate N 0)

/-- Mean over the batch of a list of same-shaped tensors, as in `.mean(0)`
of script line 318. -/
def meanTensors (N : ℕ) (ts : List Tensor) : Tensor :=
  match ts with
  | [] => tzero
  | t :: rest => Tensor.smul (1 / (N : ℚ)) (rest.foldl Tensor.add t)

/-- Script lines 306-321: for each critic parameter, the rank-dependent
broadcast of the projection vector (defined only for rank-2 and rank-1
parameters; any other rank falls through both branches and leaves the
broadcast value undefined, modelled as `none`) followed by
`R[name] = mean over i of (c_i * G[name]_i)`, the value assigned to
`m.grad`. -/
def computeR (criticP : NParams) (c : List ℚ) (G : SampleGrads) (N : ℕ) :
    Option NParams :=
  match criticP with
  | [] => some []
  | (nm, p) :: rest =>
    if p.shape.length = 2 ∨ p.shape.length = 1 then
      let gsName := lookupG G nm
      let R := meanTensors N
        ((List.range N).map (fun i => Tensor.smul (c.getD i 0) (gsName.getD i tzero)))
      match computeR rest c G N with
      | some rs => some ((nm, R) :: rs)
      | none => none
    else none

/-- One entry of a torch.optim.RMSprop step (library defaults alpha = 0.99,
eps = 1e-8, no momentum, no weight decay): the square-average state and the
parameter entry after consuming gradient entry g.  The float square root is
idealized as the exact rational square root. -/
def rmspropEntry (lr sq m g : ℚ) : ℚ × ℚ :=
  let sq' := rms_alpha * sq + (1 - rms_alpha) * g ^ 2
  (sq', m - lr * g / (Rat.sqrt sq' + rms_eps))

/-- Ternary zip used to run an elementwise optimizer rule over state,
parameter and gradient entries. -/
def zip3With (f : α → β → γ → δ) : List α → List β → List γ → List δ
  | a :: as, b :: bs, c :: cs => f a b c :: zip3With f as bs cs
  | _, _, _ => []

/-- RMSprop step on one tensor: returns the new square-average tensor and
the new parameter tensor. -/
def rmspropT (lr : ℚ) (sq m g : Tensor) : Tensor × Tensor :=
  (⟨m.shape, zip3With (fun a b c => (rmspropEntry lr a b c).1) sq.data m.data g.data⟩,
   ⟨m.shape, zip3With (fun a b c => (rmspropEntry lr a b c).2) sq.data m.data g.data⟩)

/-- Script line 324, `M_optimizer.step()`: the RMSprop step applied to every
momentum tensor with the reshaped tensors as gradients.  Returns the new
square-average collection and the new momentum collection. -/
def rmspropP (lr : ℚ) (sq M R : NParams) : NParams × NParams :=
  (zip3With (fun sqp mp rp => (mp.1, (rmspropT lr sqp.2 mp.2 rp.2).1)) sq M R,
   zip3With (fun sqp mp rp => (mp.1, (rmspropT lr sqp.2 mp.2 rp.2).2)) sq M R)

/-- Script lines 271-334, the critic learning update given the
batch-averaged critic loss gradient g and the per-sample gradients G:
EMA update of the momentum (line 285), projection vector (lines 294-304),
reshaped tensors R assigned to m.grad (lines 306-321), RMSprop step on the
momentum (line 324), and finally `p.grad = m.data` (lines 326-327).
Returns (new momentum, new RMSprop state, gradient handed to the critic
optimizer); `none` when a parameter rank falls outside the broadcast
branches. -/
def learnBlock (criticP M mSq g : NParams) (G : SampleGrads) (N : ℕ) :
    Option (NParams × NParams × NParams) :=
  let Me := emaP M g
  let c := cvec Me criticP G N
  match computeR criticP c G N with
  | none => none
  | some R =>
    let pr := rmspropP m_lr mSq Me R
    some (pr.2, pr.1, pr.2)

/-- Script lines 100-102: the parameter tensors of QNetwork, in the order
produced by `named_parameters()`.  fc1 maps observation plus action to 256
units, fc2 maps 256 to 256, fc3 maps 256 to 1. -/
def qnetworkShapes (obsDim actDim : ℕ) : List (String × List ℕ) :=
  [("fc1.weight", [256, obsDim + actDim]), ("fc1.bias", [256]),
   ("fc2.weight", [256, 256]), ("fc2.bias", [256]),
   ("fc3.weight", [1, 256]), ("fc3.bias", [1])]

/-- Script lines 178-181: the momentum network m_qf1 is a fresh QNetwork
whose parameter tensors are filled with zeros. -/
def mInit (obsDim actDim : ℕ) : NParams :=
  (qnetworkShapes obsDim actDim).map
    (fun e => (e.1, Tensor.mk e.2 (List.replicate e.2.prod 0)))

/-- One stored transition (observation, action, reward, next observation,
done flag of the replay buffer row); scalar-valued fields suffice for the
orchestration-level claims. -/
structure Transition where
  obs : ℚ
  act : ℚ
  rew : ℚ
  nextObs : ℚ
  doneF : ℚ
  deriving DecidableEq

/-- External data consumed by one pass of the loop body: the transition the
environment produced, and the batch-derived quantities of the learning
branch (the batch-averaged critic loss gradient from line 272, the
per-sample gradients from line 292, and the actor loss gradient from
line 339). -/
structure Oracle where
  tr : Transition
  g : NParams
  Gs : SampleGrads
  actorG : NParams

/-- Mutable state of the training loop: the four networks, the momentum
network, the RMSprop square-average state of M_optimizer, the replay
buffer contents, and a counter of completed critic learning updates. -/
structure TrainState where
  actorP : NParams
  criticP : NParams
  targetActorP : NParams
  targetCriticP : NParams
  M : NParams
  mSq : NParams
  buffer : List Transition
  criticUpdates : ℕ
  deriving DecidableEq

/-- Application of an elementwise optimizer rule (parameter entry, gradient
entry to new parameter entry) over a parameter collection; this abstracts
`optimizer.step()` of the Adam optimizers on critic and actor. -/
def optApply (f : ℚ → ℚ → ℚ) (P gr : NParams) : NParams :=
  List.zipWith
    (fun pp gp => (pp.1, Tensor.mk pp.2.shape (List.zipWith f pp.2.data gp.2.data)))
    P gr

/-- Script lines 343-346 per tensor:
`target_param.data.copy_(tau * param.data + (1 - tau) * target_param.data)`. -/
def smoothT (tau : ℚ) (live target : Tensor) : Tensor :=
  ⟨target.shape, List.zipWith (fun p t => tau * p + (1 - tau) * t) live.data target.data⟩

/-- Target-network smoothing over a whole parameter collection. -/
def smoothP (tau : ℚ) (live target : NParams) : NParams :=
  List.zipWith (fun lp tp => (tp.1, smoothT tau lp.2 tp.2)) live target

/-- Script lines 227-346, the loop body at global step gs: the transition
is stored in the replay buffer (line 253); then, only when
`global_step > learning_starts` (line 260, a strict comparison), one
critic learning update runs (lines 261-334) and, every policy_frequency
steps, the actor update and the target smoothing run (lines 336-346). -/
def loopStep (ls polFreq : ℕ) (tau : ℚ) (qF aF : ℚ → ℚ → ℚ) (N : ℕ)
    (s : TrainState) (gs : ℕ) (o : Oracle) : Option TrainState :=
  let s1 := { s with buffer := s.buffer ++ [o.tr] }
  if ls < gs then
    match learnBlock s1.criticP s1.M s1.mSq o.g o.Gs N with
    | none => none
    | some mm =>
      let criticP' := optApply qF s1.criticP mm.2.2
      let s2 := { s1 with M := mm.1, mSq := mm.2.1, criticP := criticP',
                          criticUpdates := s1.criticUpdates + 1 }
      if gs % polFreq = 0 then
        let actorP' := optApply aF s2.actorP o.actorG
        some { s2 with actorP := actorP',
                       targetActorP := smoothP tau actorP' s2.targetActorP,
                       targetCriticP := smoothP tau criticP' s2.targetCriticP }
      else some s2
  else some s1

/-- Iterated loop: `runLoop ... n` is the state after the loop body has run
for global steps 0, 1, ..., n-1 (the `for global_step in range(...)` of
script line 227). -/
def runLoop (ls polFreq : ℕ) (tau : ℚ) (qF aF : ℚ → ℚ → ℚ) (N : ℕ)
    (orc : ℕ → Oracle) (s0 : TrainState) : ℕ → Option TrainState
  | 0 => some s0
  | n + 1 =>
    match runLoop ls polFreq tau qF aF N orc s0 n with
    | none => none
    | some s => loopStep ls polFreq tau qF aF N s n (orc n)

/-- Every critic parameter has the rank accepted by the broadcast branches
of script lines 313-316. -/
def RanksOK (criticP : NParams) : Prop :=
  ∀ e ∈ criticP, e.2.shape.length = 2 ∨ e.2.shape.length = 1

instance (P : NParams) : Decidable (RanksOK P) := by
  unfold RanksOK
  infer_instance

/-- Shape and well-formedness invariant tying the momentum network and the
RMSprop state to the critic. -/
def GoodState (s : TrainState) : Prop :=
  shapesOf s.M = shapesOf s.criticP ∧ shapesOf s.mSq = shapesOf s.criticP ∧
    TensorsWF s.M ∧ TensorsWF s.mSq ∧ TensorsWF s.criticP

instance (s : TrainState) : Decidable (GoodState s) := by
  unfold GoodState
  infer_instance

/-- Consistency of the batch-derived collections handed to one learning
update: the batch gradient g matches the names and shapes of the critic entry
for entry, and for every critic parameter the per-sample stack holds
exactly N well-formed tensors of the shape of that parameter. -/
def OracleOK (criticP : NParams) (o : Oracle) (N : ℕ) : Prop :=
  shapesOf o.g = shapesOf criticP ∧ TensorsWF o.g ∧
    ∀ e ∈ criticP, (lookupG o.Gs e.1).length = N ∧
      ∀ t ∈ lookupG o.Gs e.1, t.shape = e.2.shape ∧ t.wf

instance (P : NParams) (o : Oracle) (N : ℕ) : Decidable (OracleOK P o N) := by
  unfold OracleOK
  infer_instance

/-
Per-sample gradient engine (script lines 203-219).

compute_delta receives the critic parameters explicitly (the `params`
dictionary of line 291) and evaluates the critic through
`functional_call(qf1, (params,), ...)` twice: once on the next state with
the action of the target actor (computed under no-grad), and once on the stored
state-action pair.  Its gradient with respect to `params` is taken by
`grad` and vmapped over the batch.

The critic itself is embedded as a member of a family of critics that are
affine in their parameters, packaged with the parameter-gradient of the
family; this keeps the differentiation exact and lets the gradient of
compute_delta be characterized by a linearization identity rather than
postulated.
-/

/-- A critic parameter vector for the three-parameter affine family. -/
abbrev Params3 := ℚ × ℚ × ℚ

/-- Componentwise sum of parameter vectors. -/
def add3 (x y : Params3) : Params3 := (x.1 + y.1, x.2.1 + y.2.1, x.2.2 + y.2.2)

/-- Componentwise difference of parameter vectors. -/
def sub3 (x y : Params3) : Params3 := (x.1 - y.1, x.2.1 - y.2.1, x.2.2 - y.2.2)

/-- Componentwise negation of a parameter vector. -/
def neg3 (x : Params3) : Params3 := (-x.1, -x.2.1, -x.2.2)

/-- Scalar multiple of a parameter vector. -/
def smul3 (c : ℚ) (x : Params3) : Params3 := (c * x.1, c * x.2.1, c * x.2.2)

/-- Inner product of parameter vectors. -/
def dot3 (x y : Params3) : ℚ := x.1 * y.1 + x.2.1 * y.2.1 + x.2.2 * y.2.2

/-- A critic family: a value function of explicit parameters (the callee of
`functional_call`), its parameter gradient, and the proof that the
gradient is exact, expressed as a linearization identity (the family is
affine in its parameters, so the identity has no remainder term). -/
structure CriticModel where
  Q : Params3 → ℚ → ℚ → ℚ
  gradQ : ℚ → ℚ → Params3
  linear_in_params : ∀ θ η o a, Q (add3 θ η) o a = Q θ o a + dot3 (gradQ o a) η

/-- One batch row fed to the vmapped gradient (script line 292); the done
flag is a float, used arithmetically in `(1 - dones)`. -/
structure Sample where
  obs : ℚ
  act : ℚ
  rew : ℚ
  nextObs : ℚ
  doneF : ℚ
  deriving DecidableEq

/-- A default sample used only as an out-of-range placeholder. -/
def sampleZero : Sample := ⟨0, 0, 0, 0, 0⟩

/-- Script lines 203-216.  For one sample: the action of the target actor on the
next observation is computed under no-grad (line 209-210); the bootstrap
value is `functional_call(qf1, (params,), (next_observations,
next_state_actions))` — the live critic evaluated at the differentiated
parameters (line 211); the residual is
`rewards + (1 - dones) * gamma * bootstrap - qf1(observations, actions)`
summed over the singleton batch dimension (lines 212-216). -/
def compute_delta (C : CriticModel) (tA : ℚ → ℚ) (gamma : ℚ) (θ : Params3)
    (s : Sample) : ℚ :=
  (s.rew + (1 - s.doneF) * gamma * C.Q θ s.nextObs (tA s.nextObs)) - C.Q θ s.obs s.act

/-- Script line 218, `grad(compute_delta)`: the gradient of compute_delta
with respect to the parameters.  Both `functional_call` sites of
compute_delta depend on the differentiated parameters, so the gradient is
`(1 - done) * gamma * gradQ(next state, next action) - gradQ(s, a)`; the bootstrap term
contributes because it is evaluated with the parameters of the live critic. -/
def compute_nabla_delta (C : CriticModel) (tA : ℚ → ℚ) (gamma : ℚ)
    (s : Sample) : Params3 :=
  sub3 (smul3 ((1 - s.doneF) * gamma) (C.gradQ s.nextObs (tA s.nextObs)))
    (C.gradQ s.obs s.act)

/-- Script line 219, `vmap(compute_nabla_delta, ...)`: the per-sample
gradient engine applied across the batch. -/
def compute_sample_nabla_delta (C : CriticModel) (tA : ℚ → ℚ) (gamma : ℚ)
    (batch : List Sample) : List Params3 :=
  batch.map (compute_nabla_delta C tA gamma)

/-- Following the words of the specification (section 4.1): the Bellman
residual with the bootstrap term evaluated by the frozen target critic
(parameters θt), kept outside the differentiation. -/
def specDelta (C : CriticModel) (tA : ℚ → ℚ) (gamma : ℚ) (θt θ : Params3)
    (s : Sample) : ℚ :=
  (s.rew + (1 - s.doneF) * gamma * C.Q θt s.nextObs (tA s.nextObs)) - C.Q θ s.obs s.act

/-- Following the words of the specification (section 4.1): the gradient of
the residual when no gradient flows through the bootstrap term — only the
`- Critic(s, a)` term contributes. -/
def specNablaDelta (C : CriticModel) (s : Sample) : Params3 :=
  neg3 (C.gradQ s.obs s.act)

/-- A concrete member of the affine critic family,
`Q (w1, w2, b) o a = w1 * o + w2 * a + b`. -/
def linCritic : CriticModel where
  Q := fun θ o a => θ.1 * o + θ.2.1 * a + θ.2.2
  gradQ := fun o a => (o, a, 1)
  linear_in_params := by
    intro θ η o a
    simp only [add3, dot3]
    ring

/-
Concrete instances used by the closed witness and counterexample
theorems below.
-/

/-- A one-parameter critic collection (rank-1 tensor of size one). -/
def cp0 : NParams := [("w", ⟨[1], [7]⟩)]

/-- A concrete momentum collection. -/
def m0 : NParams := [("w", ⟨[1], [1]⟩)]

/-- A concrete all-zero momentum collection. -/
def mz0 : NParams := [("w", ⟨[1], [0]⟩)]

/-- A concrete fresh RMSprop square-average state. -/
def sq0 : NParams := [("w", ⟨[1], [0]⟩)]

/-- A concrete batch-averaged gradient collection. -/
def g0 : NParams := [("w", ⟨[1], [1]⟩)]

/-- A concrete per-sample gradient collection for a batch of one sample. -/
def gs0 : SampleGrads := [("w", [⟨[1], [2]⟩])]

/-- A second per-sample gradient collection differing from gs0 only in the
sample values. -/
def gs1 : SampleGrads := [("w", [⟨[1], [4]⟩])]

/-- A concrete transition row. -/
def tr0 : Transition := ⟨1, 2, 3, 4, 0⟩

/-- A concrete actor-parameter collection. -/
def ap0 : NParams := [("fa", ⟨[1], [5]⟩)]

/-- A concrete oracle for one loop pass. -/
def o0 : Oracle := { tr := tr0, g := g0, Gs := gs0, actorG := ap0 }

/-- A concrete training-loop state. -/
def st0 : TrainState :=
  { actorP := ap0, criticP := cp0, targetActorP := ap0, targetCriticP := cp0,
    M := m0, mSq := sq0, buffer := [], criticUpdates := 0 }

/-- Iteration of the EMA entry rule of script line 285 from the zero start
value under a constant fed gradient. -/
def emaIter (g : ℚ) : ℕ → ℚ
  | 0 => 0
  | k + 1 => emaEntry (emaIter g k) g

/-- A tensor whose entries are all zero. -/
def AllZero (t : Tensor) : Prop := ∀ x ∈ t.data, x = 0

/-- A parameter collection whose tensors are all zero. -/
def ZeroParams (P : NParams) : Prop := ∀ e ∈ P, AllZero e.2

/-- A concrete target-actor stand-in used by the closed instances. -/
def halfActor : ℚ → ℚ := fun x => x / 2

/-- A concrete batch row with done flag zero. -/
def smpl0 : Sample := ⟨1, 2, 0, 3, 0⟩

/-- A concrete parameter collection carrying exactly the QNetwork shapes for
a one-dimensional observation and action space (entries left empty; only
the shapes matter where this collection is used). -/
def cpQ : NParams :=
  [("fc1.weight", ⟨[256, 2], []⟩), ("fc1.bias", ⟨[256], []⟩),
   ("fc2.weight", ⟨[256, 256], []⟩), ("fc2.bias", ⟨[256], []⟩),
   ("fc3.weight", ⟨[1, 256], []⟩), ("fc3.bias", ⟨[1], []⟩)]

/-- Linearization of compute_delta for a single sample: the parameter
gradient produced by the per-sample engine is exactly the linear
coefficient of the code-level residual in the parameter displacement. -/
theorem compute_delta_linearization (C : CriticModel) (tA : ℚ → ℚ) (gamma : ℚ)
    (θ η : Params3) (s : Sample) :
    compute_delta C tA gamma (add3 θ η) s =
      compute_delta C tA gamma θ s + dot3 (compute_nabla_delta C tA gamma s) η := by
  simp only [compute_delta, compute_nabla_delta]
  rw [C.linear_in_params, C.linear_in_params]
  simp only [sub3, smul3, dot3]
  ring

/-- Linearization of the spec-style residual: when the bootstrap term is
evaluated by the frozen target critic, the parameter gradient of the
residual is the negated critic gradient at the stored state-action pair. -/
theorem specDelta_linearization (C : CriticModel) (tA : ℚ → ℚ) (gamma : ℚ)
    (θt θ η : Params3) (s : Sample) :
    specDelta C tA gamma θt (add3 θ η) s =
      specDelta C tA gamma θt θ s + dot3 (specNablaDelta C s) η := by
  simp only [specDelta, specNablaDelta]
  rw [C.linear_in_params]
  simp only [neg3, dot3]
  ring

/-- C1 (amended): for every batch, the i-th output of the per-sample
gradient engine is exactly the parameter gradient of the code-level
residual of transition i, namely the gradient of
`r_i + (1 - done_i) * gamma * Critic(next_s_i, TargetActor(next_s_i)) - Critic(s_i, a_i)`
in which only the target-actor action is frozen: the bootstrap value is
evaluated with the live critic parameters, and the gradient flows through
it.  The gradient is characterized by the exact linearization identity of
the residual. -/
theorem c1_per_sample_gradient (C : CriticModel) (tA : ℚ → ℚ) (gamma : ℚ)
    (θ η : Params3) (batch : List Sample) (i : ℕ) (hi : i < batch.length) :
    compute_delta C tA gamma (add3 θ η) (batch.getD i sampleZero) =
      compute_delta C tA gamma θ (batch.getD i sampleZero) +
        dot3 ((compute_sample_nabla_delta C tA gamma batch).getD i (0, 0, 0)) η := by
  have hlen : i < (compute_sample_nabla_delta C tA gamma batch).length := by
    simpa [compute_sample_nabla_delta] using hi
  rw [List.getD_eq_getElem _ _ hlen, List.getD_eq_getElem _ _ hi]
  simp only [compute_sample_nabla_delta, List.getElem_map]
  exact compute_delta_linearization C tA gamma θ η batch[i]

/-- Witness for the amended C1 theorem at a concrete batch and index. -/
theorem c1_per_sample_gradient_witness :
    0 < [smpl0].length ∧
      compute_delta linCritic halfActor gamma_default (add3 (1, 1, 0) (1, 2, 3))
          ([smpl0].getD 0 sampleZero) =
        compute_delta linCritic halfActor gamma_default (1, 1, 0)
            ([smpl0].getD 0 sampleZero) +
          dot3 ((compute_sample_nabla_delta linCritic halfActor gamma_default
              [smpl0]).getD 0 (0, 0, 0)) (1, 2, 3) :=
  ⟨by decide,
    c1_per_sample_gradient linCritic halfActor gamma_default (1, 1, 0) (1, 2, 3)
      [smpl0] 0 (by decide)⟩

/-- Counterexample for C1 as stated: at a concrete transition with done = 0
and a nonzero bootstrap gradient, the gradient produced by the engine
differs from the gradient of the spec-style residual (whose bootstrap is
frozen), and the residual value itself differs from the spec-style residual
once the target critic parameters differ from the live ones. -/
theorem c1_counterexample :
    compute_nabla_delta linCritic halfActor gamma_default smpl0 ≠
        specNablaDelta linCritic smpl0 ∧
      compute_delta linCritic halfActor gamma_default (1, 1, 0) smpl0 ≠
        specDelta linCritic halfActor gamma_default (0, 0, 0) (1, 1, 0) smpl0 := by
  constructor
  · simp only [compute_nabla_delta, specNablaDelta, linCritic, smpl0, halfActor,
      gamma_default, sub3, smul3, neg3, ne_eq, Prod.mk.injEq, not_and]
    intro h
    norm_num at h
  · simp only [compute_delta, specDelta, linCritic, smpl0, halfActor, gamma_default]
    norm_num

/-- C9 (confirmed): one target smoothing step writes
`tau * live + (1 - tau) * target` into every entry of the target tensor;
in particular, with live entry 5, target entry 0 and tau = 0.005 the
smoothed entry equals 0.025 = 1/40 exactly. -/
theorem c9_target_smoothing (tau : ℚ) (live target : Tensor) (i : ℕ)
    (hi : i < (smoothT tau live target).data.length) :
    (smoothT tau live target).data.getD i 0 =
        tau * live.data.getD i 0 + (1 - tau) * target.data.getD i 0 ∧
      (smoothT tau_default ⟨[1], [5]⟩ ⟨[1], [0]⟩).data.getD 0 0 = 1 / 40 := by
  constructor
  · simp only [smoothT] at hi
    have h1 : i < live.data.length := List.lt_length_left_of_zipWith hi
    have h2 : i < target.data.length := List.lt_length_right_of_zipWith hi
    simp only [smoothT]
    rw [List.getD_eq_getElem _ _ (by simpa [smoothT] using hi), List.getElem_zipWith,
      List.getD_eq_getElem _ _ h1, List.getD_eq_getElem _ _ h2]
  · simp only [smoothT, tau_default, List.zipWith]
    norm_num

/-- Witness for the C9 theorem at the concrete instance of the claim. -/
theorem c9_target_smoothing_witness :
    0 < (smoothT tau_default ⟨[1], [5]⟩ ⟨[1], [0]⟩).data.length ∧
      ((smoothT tau_default ⟨[1], [5]⟩ ⟨[1], [0]⟩).data.getD 0 0 =
          tau_default * (Tensor.mk [1] [5]).data.getD 0 0 +
            (1 - tau_default) * (Tensor.mk [1] [0]).data.getD 0 0 ∧
        (smoothT tau_default ⟨[1], [5]⟩ ⟨[1], [0]⟩).data.getD 0 0 = 1 / 40) :=
  ⟨by decide,
    c9_target_smoothing tau_default ⟨[1], [5]⟩ ⟨[1], [0]⟩ 0 (by decide)⟩

/-- Closed form of the iterated EMA under a constant gradient. -/
theorem emaIter_closed (g : ℚ) (k : ℕ) :
    emaIter g k = g * (1 - lambda_val ^ k) := by
  induction k with
  | zero => simp [emaIter]
  | succ k ih =>
    simp only [emaIter, emaEntry, ih, lambda_val, beta]
    ring

/-- Distance of the iterated EMA from its fixed point. -/
theorem emaIter_dist (g : ℚ) (k : ℕ) :
    |emaIter g k - g * beta / (1 - lambda_val)| = |g| * lambda_val ^ k := by
  have hfix : g * beta / (1 - lambda_val) = g := by
    norm_num [beta, lambda_val]
  rw [hfix, emaIter_closed]
  have : g * (1 - lambda_val ^ k) - g = -(g * lambda_val ^ k) := by ring
  rw [this, abs_neg, abs_mul]
  congr 1
  exact abs_of_nonneg (pow_nonneg (by norm_num [lambda_val]) k)

/-- C7 (confirmed): feeding the same batch-averaged gradient g to the
momentum EMA on every step, starting from zero, the iterates approach the
fixed point `g * beta / (1 - lambda)` monotonically (the distance to the
fixed point never increases) and converge to it (the distance eventually
falls below any positive bound). -/
theorem c7_ema_convergence (g ε : ℚ) (hε : 0 < ε) :
    (∀ k : ℕ, |emaIter g (k + 1) - g * beta / (1 - lambda_val)| ≤
        |emaIter g k - g * beta / (1 - lambda_val)|) ∧
      ∃ N : ℕ, ∀ k : ℕ, N ≤ k →
        |emaIter g k - g * beta / (1 - lambda_val)| < ε := by
  constructor
  · intro k
    rw [emaIter_dist, emaIter_dist]
    apply mul_le_mul_of_nonneg_left _ (abs_nonneg g)
    calc lambda_val ^ (k + 1) = lambda_val ^ k * lambda_val := by ring
    _ ≤ lambda_val ^ k * 1 := by
        apply mul_le_mul_of_nonneg_left (by norm_num [lambda_val])
        exact pow_nonneg (by norm_num [lambda_val]) k
    _ = lambda_val ^ k := by ring
  · by_cases hg : g = 0
    · refine ⟨0, fun k _ => ?_⟩
      rw [emaIter_dist, hg]
      simpa using hε
    · have hga : 0 < |g| := abs_pos.mpr hg
      have hq : 0 < ε / |g| := div_pos hε hga
      obtain ⟨n, hn⟩ := exists_pow_lt_of_lt_one hq
        (show lambda_val < 1 by norm_num [lambda_val])
      refine ⟨n, fun k hk => ?_⟩
      rw [emaIter_dist]
      calc |g| * lambda_val ^ k ≤ |g| * lambda_val ^ n := by
            apply mul_le_mul_of_nonneg_left _ (abs_nonneg g)
            exact pow_le_pow_of_le_one (by norm_num [lambda_val])
              (by norm_num [lambda_val]) hk
        _ < |g| * (ε / |g|) := mul_lt_mul_of_pos_left hn hga
        _ = ε := by field_simp

/-- Witness for the C7 theorem at a concrete constant gradient and bound. -/
theorem c7_ema_convergence_witness :
    0 < (1 : ℚ) ∧
      ((∀ k : ℕ, |emaIter 2 (k + 1) - 2 * beta / (1 - lambda_val)| ≤
          |emaIter 2 k - 2 * beta / (1 - lambda_val)|) ∧
        ∃ N : ℕ, ∀ k : ℕ, N ≤ k →
          |emaIter 2 k - 2 * beta / (1 - lambda_val)| < 1) :=
  ⟨one_pos, c7_ema_convergence 2 1 one_pos⟩

/-- C2 (amended): the gradient actually handed to the critic optimizer is
the momentum collection as it stands after this step, i.e. after the EMA
update with g and after the RMSprop step whose gradient input is the
reshaped collection R; the batch gradient g reaches the critic only through
the momentum, and R only through the RMSprop step. -/
theorem c2_applied_gradient (criticP M mSq g : NParams) (G : SampleGrads)
    (N : ℕ) (R : NParams)
    (hR : computeR criticP (cvec (emaP M g) criticP G N) G N = some R) :
    learnBlock criticP M mSq g G N =
      some ((rmspropP m_lr mSq (emaP M g) R).2, (rmspropP m_lr mSq (emaP M g) R).1,
        (rmspropP m_lr mSq (emaP M g) R).2) := by
  simp only [learnBlock, hR]

/-- Witness for the amended C2 theorem at a concrete all-zero instance. -/
theorem c2_applied_gradient_witness :
    learnBlock cp0 mz0 sq0 mz0 gs0 1 =
      some ((rmspropP m_lr sq0 (emaP mz0 mz0) [("w", ⟨[1], [0]⟩)]).2,
        (rmspropP m_lr sq0 (emaP mz0 mz0) [("w", ⟨[1], [0]⟩)]).1,
        (rmspropP m_lr sq0 (emaP mz0 mz0) [("w", ⟨[1], [0]⟩)]).2) :=
  c2_applied_gradient cp0 mz0 sq0 mz0 gs0 1 [("w", ⟨[1], [0]⟩)]
    (by simp [computeR, cvec, emaP, emaEntry, lookupG, Tensor.dot, Tensor.smul,
      meanTensors, cp0, mz0, gs0, tzero, List.range_succ])

/-- Evaluation of the momentum EMA at the concrete nonzero instance. -/
theorem emaP_m0_g0 : emaP m0 g0 = [("w", ⟨[1], [1]⟩)] := by
  norm_num [emaP, emaEntry, m0, g0, lambda_val, beta]

/-- Evaluation of the projection vector at the concrete nonzero instance. -/
theorem cvec_m0 : cvec [("w", ⟨[1], [1]⟩)] cp0 gs0 1 = [2] := by
  norm_num [cvec, cp0, gs0, lookupG, Tensor.dot, tzero, List.range_succ]

/-- Evaluation of the reshaped collection at the concrete nonzero
instance. -/
theorem computeR_m0 : computeR cp0 [2] gs0 1 = some [("w", ⟨[1], [4]⟩)] := by
  norm_num [computeR, cp0, gs0, lookupG, Tensor.smul, meanTensors, tzero,
    List.range_succ]

/-- Evaluation of the RMSprop square root at the concrete nonzero
instance. -/
theorem sqrt_val_4 :
    Rat.sqrt (rms_alpha * 0 + (1 - rms_alpha) * (4 : ℚ) ^ 2) = 2 / 5 := by
  rw [show rms_alpha * 0 + (1 - rms_alpha) * (4 : ℚ) ^ 2 = (2 / 5) * (2 / 5) by
    norm_num [rms_alpha], Rat.sqrt_eq]
  rw [abs_of_nonneg]
  norm_num

/-- Counterexample for C2 as stated: at a concrete learning step, the
gradient handed to the critic optimizer differs from the reshaped
collection R computed at that step (the code hands over the
RMSprop-updated momentum values instead). -/
theorem c2_counterexample :
    (learnBlock cp0 m0 sq0 g0 gs0 1).map (fun r => r.2.2) ≠
      computeR cp0 (cvec (emaP m0 g0) cp0 gs0 1) gs0 1 := by
  rw [show computeR cp0 (cvec (emaP m0 g0) cp0 gs0 1) gs0 1 =
      some [("w", ⟨[1], [4]⟩)] by rw [emaP_m0_g0, cvec_m0, computeR_m0]]
  simp only [learnBlock, emaP_m0_g0, cvec_m0, computeR_m0]
  simp only [rmspropP, rmspropT, zip3With, rmspropEntry, sq0, Option.map_some']
  rw [sqrt_val_4]
  intro h
  simp only [Option.map_some', Option.some.injEq, List.cons.injEq, Prod.mk.injEq,
    Tensor.mk.injEq, and_true, true_and] at h
  norm_num [m_lr, learning_rate, rms_eps] at h

/-- C3 (amended): the EMA update applied to the momentum entries is exactly
`M <- 0.999 * M + 0.001 * g` with g the batch-averaged critic loss
gradient; the momentum the learning step ends with is however not this EMA
result but its further mutation by the RMSprop step whose gradient input is
the reshaped collection R derived from the per-sample gradients. -/
theorem c3_momentum_update (criticP M mSq g : NParams) (G : SampleGrads)
    (N : ℕ) (R : NParams) (j i : ℕ)
    (hR : computeR criticP (cvec (emaP M g) criticP G N) G N = some R)
    (hj : j < M.length) (hlen : M.length = g.length)
    (hi : i < ((M.getD j ("", tzero)).2.data.length))
    (hil : (M.getD j ("", tzero)).2.data.length = (g.getD j ("", tzero)).2.data.length) :
    ((emaP M g).getD j ("", tzero)).2.data.getD i 0 =
        (999 / 1000) * (M.getD j ("", tzero)).2.data.getD i 0 +
          (1 / 1000) * (g.getD j ("", tzero)).2.data.getD i 0 ∧
      (learnBlock criticP M mSq g G N).map (fun r => r.1) =
        some ((rmspropP m_lr mSq (emaP M g) R).2) := by
  have hj2 : j < g.length := hlen ▸ hj
  rw [List.getD_eq_getElem _ _ hj] at hi hil
  rw [List.getD_eq_getElem _ _ hj2] at hil
  constructor
  · have hjz : j < (emaP M g).length := by
      simp only [emaP, List.length_zipWith]
      omega
    rw [List.getD_eq_getElem _ _ hjz]
    simp only [emaP, List.getElem_zipWith]
    have hiz : i < (List.zipWith emaEntry M[j].2.data g[j].2.data).length := by
      rw [List.length_zipWith]
      omega
    rw [List.getD_eq_getElem _ _ hiz, List.getElem_zipWith,
      List.getD_eq_getElem _ _ hj, List.getD_eq_getElem _ _ hj2,
      List.getD_eq_getElem _ _ hi, List.getD_eq_getElem _ _ (hil ▸ hi)]
    simp [emaEntry, lambda_val, beta]
  · simp only [learnBlock, hR, Option.map_some']

/-- Witness for the amended C3 theorem at a concrete all-zero instance. -/
theorem c3_momentum_update_witness :
    ((emaP mz0 mz0).getD 0 ("", tzero)).2.data.getD 0 0 =
        (999 / 1000) * (mz0.getD 0 ("", tzero)).2.data.getD 0 0 +
          (1 / 1000) * (mz0.getD 0 ("", tzero)).2.data.getD 0 0 ∧
      (learnBlock cp0 mz0 sq0 mz0 gs0 1).map (fun r => r.1) =
        some ((rmspropP m_lr sq0 (emaP mz0 mz0) [("w", ⟨[1], [0]⟩)]).2) :=
  c3_momentum_update cp0 mz0 sq0 mz0 gs0 1 [("w", ⟨[1], [0]⟩)] 0 0
    (by simp [computeR, cvec, emaP, emaEntry, lookupG, Tensor.dot, Tensor.smul,
      meanTensors, cp0, mz0, gs0, tzero, List.range_succ])
    (by decide) (by decide) (by decide) (by decide)

/-- Evaluation of the projection vector for the second per-sample
collection. -/
theorem cvec_m0_b : cvec [("w", ⟨[1], [1]⟩)] cp0 gs1 1 = [4] := by
  norm_num [cvec, cp0, gs1, lookupG, Tensor.dot, tzero, List.range_succ]

/-- Evaluation of the reshaped collection for the second per-sample
collection. -/
theorem computeR_m0_b : computeR cp0 [4] gs1 1 = some [("w", ⟨[1], [16]⟩)] := by
  norm_num [computeR, cp0, gs1, lookupG, Tensor.smul, meanTensors, tzero,
    List.range_succ]

/-- Evaluation of the RMSprop square root for the second per-sample
collection. -/
theorem sqrt_val_16 :
    Rat.sqrt (rms_alpha * 0 + (1 - rms_alpha) * (16 : ℚ) ^ 2) = 8 / 5 := by
  rw [show rms_alpha * 0 + (1 - rms_alpha) * (16 : ℚ) ^ 2 = (8 / 5) * (8 / 5) by
    norm_num [rms_alpha], Rat.sqrt_eq]
  rw [abs_of_nonneg]
  norm_num

/-- Counterexample for C3 as stated: two learning steps that start from the
same momentum state and receive the same batch-averaged gradient g but
different per-sample gradient collections G end with different momentum
states, so the mutation of M does depend on the per-sample gradients. -/
theorem c3_counterexample :
    (learnBlock cp0 m0 sq0 g0 gs0 1).map (fun r => r.1) ≠
      (learnBlock cp0 m0 sq0 g0 gs1 1).map (fun r => r.1) := by
  simp only [learnBlock, emaP_m0_g0, cvec_m0, computeR_m0, cvec_m0_b, computeR_m0_b]
  simp only [rmspropP, rmspropT, zip3With, rmspropEntry, sq0, Option.map_some']
  rw [sqrt_val_4, sqrt_val_16]
  intro h
  simp only [Option.some.injEq, List.cons.injEq, Prod.mk.injEq,
    Tensor.mk.injEq, and_true, true_and] at h
  norm_num [m_lr, learning_rate, rms_eps] at h

/-- Contraction with an all-zero left tensor vanishes. -/
theorem dot_zero_left (m t : Tensor) (hm : AllZero m) : Tensor.dot m t = 0 := by
  unfold Tensor.dot
  apply List.sum_eq_zero
  intro x hx
  rw [List.mem_iff_getElem] at hx
  obtain ⟨i, hlen, hx⟩ := hx
  rw [List.getElem_zipWith] at hx
  have h1 : i < m.data.length := List.lt_length_left_of_zipWith hlen
  rw [← hx, hm _ (List.getElem_mem h1), zero_mul]

/-- Entrywise sum of two all-zero entry lists is all zero. -/
theorem list_zip_add_zero (a b : List ℚ) (ha : ∀ x ∈ a, x = 0)
    (hb : ∀ x ∈ b, x = 0) : ∀ x ∈ List.zipWith (· + ·) a b, x = 0 := by
  intro x hx
  rw [List.mem_iff_getElem] at hx
  obtain ⟨i, hlen, hx⟩ := hx
  rw [List.getElem_zipWith] at hx
  rw [← hx, ha _ (List.getElem_mem (List.lt_length_left_of_zipWith hlen)),
    hb _ (List.getElem_mem (List.lt_length_right_of_zipWith hlen)), add_zero]

/-- The projection vector vanishes identically when every momentum tensor
is zero at the time it is computed. -/
theorem cvec_zero (M criticP : NParams) (G : SampleGrads) (N : ℕ)
    (hM : ZeroParams M) : cvec M criticP G N = List.replicate N 0 := by
  unfold cvec
  have key : ∀ (L : List ((String × Tensor) × (String × Tensor))) (acc : List ℚ),
      (∀ p ∈ L, AllZero p.1.2) → acc = List.replicate N 0 →
      L.foldl
        (fun acc mp =>
          let gsName := lookupG G mp.2.1
          List.zipWith (· + ·) acc
            ((List.range N).map (fun i => Tensor.dot mp.1.2 (gsName.getD i tzero))))
        acc = List.replicate N 0 := by
    intro L
    induction L with
    | nil =>
      intro acc _ hacc
      simpa using hacc
    | cons p L ih =>
      intro acc hL hacc
      rw [List.foldl_cons]
      apply ih _ (fun q hq => hL q (List.mem_cons_of_mem _ hq))
      rw [hacc]
      apply List.eq_replicate_iff.mpr
      refine ⟨by simp, ?_⟩
      intro b hb
      refine list_zip_add_zero _ _ (fun x hx => List.eq_of_mem_replicate hx) ?_ b hb
      intro x hx
      obtain ⟨i, _, rfl⟩ := List.mem_map.mp hx
      exact dot_zero_left _ _ (hL p (List.mem_cons_self _ _))
  apply key
  · intro q hq
    exact hM q.1 (List.of_mem_zip hq).1
  · rfl

/-- Scaling an arbitrary tensor by the zero scalar yields an all-zero
tensor. -/
theorem smul_zero_coeff (t : Tensor) : AllZero (Tensor.smul 0 t) := by
  intro x hx
  obtain ⟨y, _, rfl⟩ := List.mem_map.mp hx
  exact zero_mul y

/-- Scaling an all-zero tensor keeps it all zero. -/
theorem smul_allzero_of (c : ℚ) (t : Tensor) (ht : AllZero t) :
    AllZero (Tensor.smul c t) := by
  intro x hx
  obtain ⟨y, hy, rfl⟩ := List.mem_map.mp hx
  rw [ht y hy, mul_zero]

/-- Folding tensor addition over all-zero tensors stays all zero. -/
theorem foldl_add_allzero (ts : List Tensor) (t : Tensor) (ht : AllZero t)
    (hts : ∀ u ∈ ts, AllZero u) : AllZero (ts.foldl Tensor.add t) := by
  induction ts generalizing t with
  | nil => simpa using ht
  | cons u ts ih =>
    rw [List.foldl_cons]
    apply ih
    · intro x hx
      exact list_zip_add_zero _ _ ht (hts u (List.mem_cons_self _ _)) x hx
    · exact fun v hv => hts v (List.mem_cons_of_mem _ hv)

/-- The batch mean of all-zero tensors is all zero. -/
theorem meanTensors_allzero (N : ℕ) (ts : List Tensor)
    (hts : ∀ u ∈ ts, AllZero u) : AllZero (meanTensors N ts) := by
  cases ts with
  | nil =>
    intro x hx
    simp [meanTensors, tzero] at hx
  | cons t rest =>
    simp only [meanTensors]
    apply smul_allzero_of
    exact foldl_add_allzero rest t (hts t (List.mem_cons_self _ _))
      (fun u hu => hts u (List.mem_cons_of_mem _ hu))

/-- When the projection vector is identically zero, every reshaped tensor
produced by the broadcast-and-average stage is all zero. -/
theorem computeR_zero (criticP : NParams) (G : SampleGrads) (N : ℕ)
    (R : NParams) (hR : computeR criticP (List.replicate N 0) G N = some R) :
    ZeroParams R := by
  induction criticP generalizing R with
  | nil =>
    simp only [computeR, Option.some.injEq] at hR
    subst hR
    intro e he
    simp at he
  | cons p rest ih =>
    obtain ⟨nm, pt⟩ := p
    simp only [computeR] at hR
    by_cases hrank : pt.shape.length = 2 ∨ pt.shape.length = 1
    · rw [if_pos hrank] at hR
      cases hrest : computeR rest (List.replicate N 0) G N with
      | none =>
        rw [hrest] at hR
        simp at hR
      | some rs =>
        rw [hrest] at hR
        simp only [Option.some.injEq] at hR
        subst hR
        intro e he
        rcases List.mem_cons.mp he with rfl | hmem
        · apply meanTensors_allzero
          intro u hu
          obtain ⟨i, _, rfl⟩ := List.mem_map.mp hu
          have hcoeff : (List.replicate N (0 : ℚ)).getD i 0 = 0 := by
            by_cases hi : i < N
            · rw [List.getD_eq_getElem _ _ (by simpa using hi), List.getElem_replicate]
            · rw [List.getD_eq_default _ _ (by simpa using Nat.le_of_not_lt hi)]
          rw [hcoeff]
          exact smul_zero_coeff _
        · exact ih rs hrest e hmem
    · rw [if_neg hrank] at hR
      exact absurd hR (by simp)

/-- C4 (confirmed): if every momentum tensor is zero at the time the
reshaping stage runs, then every reshaped tensor R[name] is exactly zero,
for any per-sample gradient collection and any batch size. -/
theorem c4_zero_reshaped (criticP M : NParams) (G : SampleGrads) (N : ℕ)
    (R : NParams) (hM : ZeroParams M)
    (hR : computeR criticP (cvec M criticP G N) G N = some R) :
    ZeroParams R := by
  rw [cvec_zero M criticP G N hM] at hR
  exact computeR_zero criticP G N R hR

/-- Witness for the C4 theorem at a concrete zero-momentum instance. -/
theorem c4_zero_reshaped_witness :
    ZeroParams mz0 ∧ ZeroParams [("w", ⟨[1], [0]⟩)] :=
  ⟨by simp [ZeroParams, AllZero, mz0],
    c4_zero_reshaped cp0 mz0 gs0 1 [("w", ⟨[1], [0]⟩)]
      (by simp [ZeroParams, AllZero, mz0])
      (by simp [computeR, cvec, lookupG, Tensor.dot, Tensor.smul, meanTensors,
        cp0, mz0, gs0, tzero, List.range_succ])⟩

/-- The broadcast-and-average stage never falls through when every critic
parameter has rank two or rank one. -/
theorem computeR_isSome (criticP : NParams) (c : List ℚ) (G : SampleGrads)
    (N : ℕ) (h : RanksOK criticP) : (computeR criticP c G N).isSome := by
  induction criticP with
  | nil => simp [computeR]
  | cons p rest ih =>
    obtain ⟨nm, pt⟩ := p
    have hrank : pt.shape.length = 2 ∨ pt.shape.length = 1 :=
      h (nm, pt) (List.mem_cons_self _ _)
    have hrest := ih (fun e he => h e (List.mem_cons_of_mem _ he))
    obtain ⟨rs, hrs⟩ := Option.isSome_iff_exists.mp hrest
    simp [computeR, if_pos hrank, hrs]

/-- The learning update runs to completion whenever the critic ranks are
within the broadcast branches. -/
theorem learnBlock_isSome (criticP M mSq g : NParams) (G : SampleGrads)
    (N : ℕ) (h : RanksOK criticP) : (learnBlock criticP M mSq g G N).isSome := by
  obtain ⟨R, hR⟩ := Option.isSome_iff_exists.mp
    (computeR_isSome criticP (cvec (emaP M g) criticP G N) G N h)
  simp [learnBlock, hR]

/-- C5 (amended): in one pass of the loop body the critic learning update
executes exactly once when `learning_starts < global_step` and not at all
otherwise; in particular, at the step where the global step equals
learning_starts no learning update executes (the comparison of script line
260 is strict). -/
theorem c5_learning_cadence (ls polFreq : ℕ) (tau : ℚ) (qF aF : ℚ → ℚ → ℚ)
    (N : ℕ) (s : TrainState) (gs : ℕ) (o : Oracle)
    (h : RanksOK s.criticP) :
    (loopStep ls polFreq tau qF aF N s gs o).map (fun x => x.criticUpdates) =
      some (s.criticUpdates + if ls < gs then 1 else 0) := by
  simp only [loopStep]
  by_cases hls : ls < gs
  · simp only [hls, if_pos hls, if_true]
    obtain ⟨mm, hmm⟩ := Option.isSome_iff_exists.mp
      (learnBlock_isSome s.criticP s.M s.mSq o.g o.Gs N h)
    rw [hmm]
    by_cases hp : gs % polFreq = 0
    · simp [hp]
    · simp [hp]
  · simp [hls]

/-- Witness for the amended C5 theorem one step past the threshold. -/
theorem c5_learning_cadence_witness :
    (loopStep 1 2 tau_default (fun p _ => p) (fun p _ => p) 1 st0 3 o0).map
        (fun x => x.criticUpdates) =
      some (st0.criticUpdates + if 1 < 3 then 1 else 0) :=
  c5_learning_cadence 1 2 tau_default (fun p _ => p) (fun p _ => p) 1 st0 3 o0
    (by decide)

/-- Counterexample for C5 as stated: at the step whose global step equals
learning_starts (default 25000) the loop body executes no critic learning
update, although the claim places this step in the learning phase. -/
theorem c5_counterexample :
    (loopStep 25000 2 tau_default (fun p _ => p) (fun p _ => p) 1 st0 25000
        o0).map (fun x => x.criticUpdates) ≠
      some (st0.criticUpdates + 1) := by
  simp [loopStep, st0]

/-- C6 (confirmed): as long as the global step stays below learning_starts,
the loop changes nothing but the replay buffer: after n warmup steps the
actor, critic, target networks, momentum state and optimizer state all
still hold their startup values, while the n produced transitions have
been appended to the buffer. -/
theorem c6_warmup_frame (ls polFreq : ℕ) (tau : ℚ) (qF aF : ℚ → ℚ → ℚ)
    (N : ℕ) (orc : ℕ → Oracle) (s0 : TrainState) (n : ℕ) (h : n ≤ ls) :
    runLoop ls polFreq tau qF aF N orc s0 n =
      some { s0 with
        buffer := s0.buffer ++ (List.range n).map (fun k => (orc k).tr) } := by
  induction n with
  | zero => simp [runLoop]
  | succ n ih =>
    have hn : n ≤ ls := Nat.le_of_succ_le h
    rw [runLoop, ih hn]
    have hlt : ¬ ls < n := by omega
    simp [loopStep, hlt, List.range_succ]

/-- Witness for the C6 theorem after two concrete warmup steps. -/
theorem c6_warmup_frame_witness :
    runLoop 3 2 tau_default (fun p _ => p) (fun p _ => p) 1 (fun _ => o0) st0 2 =
      some { st0 with
        buffer := st0.buffer ++ (List.range 2).map (fun k => ((fun _ => o0) k).tr) } :=
  c6_warmup_frame 3 2 tau_default (fun p _ => p) (fun p _ => p) 1 (fun _ => o0)
    st0 2 (by decide)

/-- C10 (confirmed): every parameter tensor of QNetwork has rank exactly
two (linear weights) or one (biases), so on any critic parameter
collection carrying the QNetwork shapes the rank-dependent broadcast of
the reshaping stage is total: the otherwise-unhandled branch is
unreachable and the stage always produces a value. -/
theorem c10_rank_totality (obsDim actDim : ℕ) (criticP : NParams)
    (hs : shapesOf criticP = qnetworkShapes obsDim actDim)
    (c : List ℚ) (G : SampleGrads) (N : ℕ) :
    RanksOK criticP ∧ (computeR criticP c G N).isSome := by
  have hr : RanksOK criticP := by
    intro e he
    have hmem : (e.1, e.2.shape) ∈ qnetworkShapes obsDim actDim := by
      rw [← hs]
      exact List.mem_map_of_mem _ he
    simp only [qnetworkShapes, List.mem_cons, List.not_mem_nil, or_false,
      Prod.mk.injEq] at hmem
    rcases hmem with ⟨_, h2⟩ | ⟨_, h2⟩ | ⟨_, h2⟩ | ⟨_, h2⟩ | ⟨_, h2⟩ | ⟨_, h2⟩ <;>
      rw [h2] <;> simp
  exact ⟨hr, computeR_isSome criticP c G N hr⟩

/-- Witness for the C10 theorem on a concrete collection with the QNetwork
shapes. -/
theorem c10_rank_totality_witness :
    RanksOK cpQ ∧ (computeR cpQ [] [] 0).isSome :=
  c10_rank_totality 1 1 cpQ (by decide) [] [] 0

/-- Shapes of a parameter collection determine its length. -/
theorem shapesOf_length (P : NParams) : (shapesOf P).length = P.length :=
  List.length_map _ _

/-- Equal shape lists force equal collection lengths. -/
theorem length_eq_of_shapesOf_eq {P Q : NParams}
    (h : shapesOf P = shapesOf Q) : P.length = Q.length := by
  rw [← shapesOf_length P, ← shapesOf_length Q, h]

/-- A binary parameter zip whose combiner keeps the name and shape of its
first argument keeps the shape list of the first collection. -/
theorem shapesOf_zipWith (f : String × Tensor → String × Tensor → String × Tensor)
    (hf : ∀ a b, (f a b).1 = a.1 ∧ (f a b).2.shape = a.2.shape)
    (P Q : NParams) (hlen : P.length ≤ Q.length) :
    shapesOf (List.zipWith f P Q) = shapesOf P := by
  induction P generalizing Q with
  | nil => simp [shapesOf]
  | cons p P ih =>
    cases Q with
    | nil => simp at hlen
    | cons q Q =>
      simp only [List.zipWith_cons_cons, shapesOf, List.map_cons]
      refine congrArg₂ List.cons ?_ (ih Q (by simpa using hlen))
      rw [(hf p q).1, (hf p q).2]

/-- A binary parameter zip whose combiner produces well-formed tensors out
of shape-matched well-formed inputs produces a well-formed collection. -/
theorem TensorsWF_zipWith (f : String × Tensor → String × Tensor → String × Tensor)
    (hf : ∀ a b, a.2.wf → b.2.wf → a.2.shape = b.2.shape → (f a b).2.wf)
    (P Q : NParams) (hsh : shapesOf P = shapesOf Q)
    (hP : TensorsWF P) (hQ : TensorsWF Q) :
    TensorsWF (List.zipWith f P Q) := by
  induction P generalizing Q with
  | nil => intro e he; simp at he
  | cons p P ih =>
    cases Q with
    | nil => intro e he; simp at he
    | cons q Q =>
      intro e he
      simp only [shapesOf, List.map_cons, List.cons.injEq, Prod.mk.injEq] at hsh
      simp only [List.zipWith_cons_cons] at he
      rcases List.mem_cons.mp he with rfl | hmem
      · exact hf p q (hP p (List.mem_cons_self _ _)) (hQ q (List.mem_cons_self _ _))
          hsh.1.2
      · exact ih Q (by simpa [shapesOf] using hsh.2)
          (fun x hx => hP x (List.mem_cons_of_mem _ hx))
          (fun x hx => hQ x (List.mem_cons_of_mem _ hx)) e hmem

/-- Length of the ternary zip. -/
theorem zip3With_length (f : α → β → γ → δ) (a : List α) (b : List β)
    (c : List γ) :
    (zip3With f a b c).length = min a.length (min b.length c.length) := by
  induction a generalizing b c with
  | nil => simp [zip3With]
  | cons x a ih =>
    cases b with
    | nil => simp [zip3With]
    | cons y b =>
      cases c with
      | nil => simp [zip3With]
      | cons z c =>
        simp only [zip3With, List.length_cons, ih]
        omega

/-- A ternary parameter zip whose combiner keeps the name and shape of its
middle argument keeps the shape list of the middle collection. -/
theorem shapesOf_zip3With
    (f : String × Tensor → String × Tensor → String × Tensor → String × Tensor)
    (hf : ∀ a b c, (f a b c).1 = b.1 ∧ (f a b c).2.shape = b.2.shape)
    (A B C : NParams) (hA : B.length ≤ A.length) (hC : B.length ≤ C.length) :
    shapesOf (zip3With f A B C) = shapesOf B := by
  induction B generalizing A C with
  | nil =>
    cases A with
    | nil => simp [zip3With, shapesOf]
    | cons a A =>
      cases C with
      | nil => simp [zip3With, shapesOf]
      | cons c C => simp [zip3With, shapesOf]
  | cons b B ih =>
    cases A with
    | nil => simp at hA
    | cons a A =>
      cases C with
      | nil => simp at hC
      | cons c C =>
        simp only [zip3With, shapesOf, List.map_cons]
        refine congrArg₂ List.cons ?_ (ih A C (by simpa using hA) (by simpa using hC))
        rw [(hf a b c).1, (hf a b c).2]

/-- A ternary parameter zip whose combiner produces well-formed tensors out
of shape-matched well-formed inputs produces a well-formed collection. -/
theorem TensorsWF_zip3With
    (f : String × Tensor → String × Tensor → String × Tensor → String × Tensor)
    (hf : ∀ a b c, a.2.wf → b.2.wf → c.2.wf → a.2.shape = b.2.shape →
      c.2.shape = b.2.shape → (f a b c).2.wf)
    (A B C : NParams) (hshA : shapesOf A = shapesOf B)
    (hshC : shapesOf C = shapesOf B)
    (hA : TensorsWF A) (hB : TensorsWF B) (hC : TensorsWF C) :
    TensorsWF (zip3With f A B C) := by
  induction B generalizing A C with
  | nil =>
    intro e he
    have : A = [] := by
      have := length_eq_of_shapesOf_eq hshA
      simpa [List.length_eq_zero] using this
    subst this
    simp [zip3With] at he
  | cons b B ih =>
    cases A with
    | nil => simp [shapesOf] at hshA
    | cons a A =>
      cases C with
      | nil => simp [shapesOf] at hshC
      | cons c C =>
        intro e he
        simp only [shapesOf, List.map_cons, List.cons.injEq, Prod.mk.injEq] at hshA hshC
        simp only [zip3With] at he
        rcases List.mem_cons.mp he with rfl | hmem
        · exact hf a b c (hA a (List.mem_cons_self _ _)) (hB b (List.mem_cons_self _ _))
            (hC c (List.mem_cons_self _ _)) hshA.1.2 hshC.1.2
        · exact ih A C (by simpa [shapesOf] using hshA.2)
            (by simpa [shapesOf] using hshC.2)
            (fun x hx => hA x (List.mem_cons_of_mem _ hx))
            (fun x hx => hB x (List.mem_cons_of_mem _ hx))
            (fun x hx => hC x (List.mem_cons_of_mem _ hx)) e hmem

/-- Folding tensor addition over same-shaped well-formed tensors keeps the
shape and well-formedness. -/
theorem foldl_add_shape_wf (ts : List Tensor) (t : Tensor) (sh : List ℕ)
    (ht : t.shape = sh ∧ t.wf) (hts : ∀ u ∈ ts, u.shape = sh ∧ u.wf) :
    (ts.foldl Tensor.add t).shape = sh ∧ (ts.foldl Tensor.add t).wf := by
  induction ts generalizing t with
  | nil => simpa using ht
  | cons u ts ih =>
    rw [List.foldl_cons]
    apply ih
    · have hu := hts u (List.mem_cons_self _ _)
      refine ⟨ht.1, ?_⟩
      simp only [Tensor.wf, Tensor.add, List.length_zipWith]
      rw [ht.2, hu.2, ht.1, hu.1]
      simp
    · exact fun v hv => hts v (List.mem_cons_of_mem _ hv)

/-- The batch mean of a nonempty list of same-shaped well-formed tensors is
a well-formed tensor of that shape. -/
theorem meanTensors_shape_wf (N : ℕ) (ts : List Tensor) (sh : List ℕ)
    (hne : ts ≠ []) (hts : ∀ u ∈ ts, u.shape = sh ∧ u.wf) :
    (meanTensors N ts).shape = sh ∧ (meanTensors N ts).wf := by
  cases ts with
  | nil => exact absurd rfl hne
  | cons t rest =>
    simp only [meanTensors]
    have hfold := foldl_add_shape_wf rest t sh (hts t (List.mem_cons_self _ _))
      (fun u hu => hts u (List.mem_cons_of_mem _ hu))
    refine ⟨hfold.1, ?_⟩
    simp only [Tensor.wf, Tensor.smul, List.length_map]
    rw [hfold.2]

/-- The reshaping stage returns a collection with exactly the names and
shapes of the critic collection, made of well-formed tensors, whenever the
per-sample stacks are consistent with the critic shapes. -/
theorem computeR_shapes (criticP : NParams) (c : List ℚ) (G : SampleGrads)
    (N : ℕ) (R : NParams) (hN : 0 < N)
    (hG : ∀ e ∈ criticP, (lookupG G e.1).length = N ∧
      ∀ t ∈ lookupG G e.1, t.shape = e.2.shape ∧ t.wf)
    (hR : computeR criticP c G N = some R) :
    shapesOf R = shapesOf criticP ∧ TensorsWF R := by
  induction criticP generalizing R with
  | nil =>
    simp only [computeR, Option.some.injEq] at hR
    subst hR
    exact ⟨rfl, fun e he => by simp at he⟩
  | cons p rest ih =>
    obtain ⟨nm, pt⟩ := p
    simp only [computeR] at hR
    by_cases hrank : pt.shape.length = 2 ∨ pt.shape.length = 1
    · rw [if_pos hrank] at hR
      cases hrest : computeR rest c G N with
      | none =>
        rw [hrest] at hR
        simp at hR
      | some rs =>
        rw [hrest] at hR
        simp only [Option.some.injEq] at hR
        subst hR
        have hGhead := hG (nm, pt) (List.mem_cons_self _ _)
        have hmean : (meanTensors N
            ((List.range N).map (fun i =>
              Tensor.smul (c.getD i 0) ((lookupG G nm).getD i tzero)))).shape = pt.shape ∧
            (meanTensors N ((List.range N).map (fun i =>
              Tensor.smul (c.getD i 0) ((lookupG G nm).getD i tzero)))).wf := by
          apply meanTensors_shape_wf
          · simp only [ne_eq, List.map_eq_nil_iff, List.range_eq_nil]
            omega
          · intro u hu
            obtain ⟨i, hi, rfl⟩ := List.mem_map.mp hu
            have hiN : i < N := List.mem_range.mp hi
            have hilt : i < (lookupG G nm).length := by
              rw [hGhead.1]
              exact hiN
            have hmem : (lookupG G nm).getD i tzero ∈ lookupG G nm := by
              rw [List.getD_eq_getElem _ _ hilt]
              exact List.getElem_mem hilt
            have hq := hGhead.2 _ hmem
            exact ⟨hq.1, by
              simp only [Tensor.wf, Tensor.smul, List.length_map]
              rw [hq.2, hq.1]⟩
        have hrec := ih rs (fun e he => hG e (List.mem_cons_of_mem _ he)) hrest
        constructor
        · simp only [shapesOf, List.map_cons]
          refine congrArg₂ List.cons ?_ hrec.1
          rw [hmean.1]
        · intro e he
          rcases List.mem_cons.mp he with rfl | hmem
          · exact hmean.2
          · exact hrec.2 e hmem
    · rw [if_neg hrank] at hR
      exact absurd hR (by simp)

/-- Through one learning update the momentum collection and the RMSprop
state keep exactly the names and shapes of the critic parameters, stay
well formed, and the gradient handed to the critic optimizer is the new
momentum collection itself. -/
theorem learnBlock_invariant (criticP M mSq g : NParams) (G : SampleGrads)
    (N : ℕ) (mm : NParams × NParams × NParams) (hN : 0 < N)
    (hMsh : shapesOf M = shapesOf criticP) (hSqsh : shapesOf mSq = shapesOf criticP)
    (hMwf : TensorsWF M) (hSqwf : TensorsWF mSq)
    (hgsh : shapesOf g = shapesOf criticP) (hgwf : TensorsWF g)
    (hG : ∀ e ∈ criticP, (lookupG G e.1).length = N ∧
      ∀ t ∈ lookupG G e.1, t.shape = e.2.shape ∧ t.wf)
    (h : learnBlock criticP M mSq g G N = some mm) :
    shapesOf mm.1 = shapesOf criticP ∧ shapesOf mm.2.1 = shapesOf criticP ∧
      TensorsWF mm.1 ∧ TensorsWF mm.2.1 ∧ mm.2.2 = mm.1 := by
  simp only [learnBlock] at h
  cases hcr : computeR criticP (cvec (emaP M g) criticP G N) G N with
  | none =>
    rw [hcr] at h
    simp at h
  | some R =>
    rw [hcr] at h
    simp only [Option.some.injEq] at h
    subst h
    have hMe_sh : shapesOf (emaP M g) = shapesOf criticP := by
      rw [← hMsh]
      apply shapesOf_zipWith
      · exact fun a b => ⟨rfl, rfl⟩
      · exact Nat.le_of_eq (length_eq_of_shapesOf_eq (hMsh.trans hgsh.symm))
    have hMe_wf : TensorsWF (emaP M g) := by
      apply TensorsWF_zipWith _ _ M g (hMsh.trans hgsh.symm) hMwf hgwf
      intro a b ha hb hab
      simp only [Tensor.wf, List.length_zipWith]
      rw [ha, hb, hab]
      simp
    have hR := computeR_shapes criticP (cvec (emaP M g) criticP G N) G N R hN hG hcr
    have hsq2 : shapesOf mSq = shapesOf (emaP M g) := hSqsh.trans hMe_sh.symm
    have hR2 : shapesOf R = shapesOf (emaP M g) := hR.1.trans hMe_sh.symm
    have hlenSq : (emaP M g).length ≤ mSq.length :=
      Nat.le_of_eq (length_eq_of_shapesOf_eq hsq2).symm
    have hlenR : (emaP M g).length ≤ R.length :=
      Nat.le_of_eq (length_eq_of_shapesOf_eq hR2).symm
    have hshape1 : shapesOf (rmspropP m_lr mSq (emaP M g) R).1 = shapesOf criticP := by
      rw [← hMe_sh]
      simp only [rmspropP]
      apply shapesOf_zip3With _ _ mSq (emaP M g) R hlenSq hlenR
      intro a b c
      exact ⟨rfl, rfl⟩
    have hshape2 : shapesOf (rmspropP m_lr mSq (emaP M g) R).2 = shapesOf criticP := by
      rw [← hMe_sh]
      simp only [rmspropP]
      apply shapesOf_zip3With _ _ mSq (emaP M g) R hlenSq hlenR
      intro a b c
      exact ⟨rfl, rfl⟩
    have hwf1 : TensorsWF (rmspropP m_lr mSq (emaP M g) R).1 := by
      simp only [rmspropP]
      apply TensorsWF_zip3With _ _ mSq (emaP M g) R hsq2 hR2 hSqwf hMe_wf hR.2
      intro a b c ha hb hc hab hcb
      simp only [Tensor.wf, rmspropT, zip3With_length]
      rw [ha, hb, hc, hab, hcb]
      simp
    have hwf2 : TensorsWF (rmspropP m_lr mSq (emaP M g) R).2 := by
      simp only [rmspropP]
      apply TensorsWF_zip3With _ _ mSq (emaP M g) R hsq2 hR2 hSqwf hMe_wf hR.2
      intro a b c ha hb hc hab hcb
      simp only [Tensor.wf, rmspropT, zip3With_length]
      rw [ha, hb, hc, hab, hcb]
      simp
    exact ⟨hshape2, hshape1, hwf2, hwf1, rfl⟩

/-- C8 (confirmed): the momentum network starts with exactly the QNetwork
parameter names and shapes filled with zeros, and one pass of the loop body
preserves the invariant that the momentum collection (and the RMSprop
state) carries exactly the names and shapes of the critic parameters, all
tensors well formed, the critic shapes themselves being unchanged by the
pass. -/
theorem c8_shape_invariant (obsDim actDim ls polFreq : ℕ) (tau : ℚ)
    (qF aF : ℚ → ℚ → ℚ) (N : ℕ) (s s' : TrainState) (gs : ℕ) (o : Oracle)
    (hN : 0 < N) (hs : GoodState s) (ho : OracleOK s.criticP o N)
    (hstep : loopStep ls polFreq tau qF aF N s gs o = some s') :
    shapesOf (mInit obsDim actDim) = qnetworkShapes obsDim actDim ∧
      GoodState s' ∧ shapesOf s'.criticP = shapesOf s.criticP := by
  have hinit : shapesOf (mInit obsDim actDim) = qnetworkShapes obsDim actDim := by
    simp [shapesOf, mInit, List.map_map, Function.comp_def]
  refine ⟨hinit, ?_⟩
  obtain ⟨hMsh, hSqsh, hMwf, hSqwf, hCwf⟩ := hs
  obtain ⟨hgsh, hgwf, hG⟩ := ho
  simp only [loopStep] at hstep
  by_cases hls : ls < gs
  · rw [if_pos hls] at hstep
    cases hlb : learnBlock s.criticP s.M s.mSq o.g o.Gs N with
    | none =>
      rw [hlb] at hstep
      simp at hstep
    | some mm =>
      rw [hlb] at hstep
      dsimp only at hstep
      have hinv := learnBlock_invariant s.criticP s.M s.mSq o.g o.Gs N mm hN
        hMsh hSqsh hMwf hSqwf hgsh hgwf hG hlb
      have happlied_sh : shapesOf mm.2.2 = shapesOf s.criticP := by
        rw [hinv.2.2.2.2]
        exact hinv.1
      have happlied_wf : TensorsWF mm.2.2 := by
        rw [hinv.2.2.2.2]
        exact hinv.2.2.1
      have hCsh : shapesOf (optApply qF s.criticP mm.2.2) = shapesOf s.criticP := by
        apply shapesOf_zipWith
        · exact fun a b => ⟨rfl, rfl⟩
        · exact Nat.le_of_eq (length_eq_of_shapesOf_eq happlied_sh).symm
      have hCwf2 : TensorsWF (optApply qF s.criticP mm.2.2) := by
        apply TensorsWF_zipWith _ _ s.criticP mm.2.2 happlied_sh.symm hCwf happlied_wf
        intro a b ha hb hab
        simp only [Tensor.wf, List.length_zipWith]
        rw [ha, hb, hab]
        simp
      by_cases hp : gs % polFreq = 0
      · rw [if_pos hp] at hstep
        simp only [Option.some.injEq] at hstep
        subst hstep
        exact ⟨⟨hinv.1.trans hCsh.symm, hinv.2.1.trans hCsh.symm, hinv.2.2.1,
          hinv.2.2.2.1, hCwf2⟩, hCsh⟩
      · rw [if_neg hp] at hstep
        simp only [Option.some.injEq] at hstep
        subst hstep
        exact ⟨⟨hinv.1.trans hCsh.symm, hinv.2.1.trans hCsh.symm, hinv.2.2.1,
          hinv.2.2.2.1, hCwf2⟩, hCsh⟩
  · rw [if_neg hls] at hstep
    simp only [Option.some.injEq] at hstep
    subst hstep
    exact ⟨⟨hMsh, hSqsh, hMwf, hSqwf, hCwf⟩, rfl⟩

/-- Witness for the C8 theorem on a concrete warmup pass. -/
theorem c8_shape_invariant_witness :
    shapesOf (mInit 1 1) = qnetworkShapes 1 1 ∧
      GoodState { st0 with buffer := st0.buffer ++ [o0.tr] } ∧
      shapesOf ({ st0 with buffer := st0.buffer ++ [o0.tr] } : TrainState).criticP =
        shapesOf st0.criticP :=
  c8_shape_invariant 1 1 5 2 tau_default (fun p _ => p) (fun p _ => p) 1 st0
    { st0 with buffer := st0.buffer ++ [o0.tr] } 0 o0 (by decide) (by decide)
    (by decide) rfl

end RanDDPG

